import Mathlib

/-!
Verification development for the fullcust solver core (src/backend/internal.ts
together with the 2D array primitives of array2d.ts and the public data types
of solver.ts).  The TypeScript code is shallowly embedded: every JS `number`
that is used as an index or size becomes a `Nat`, grid cell values and
positions (which may be negative) become `Int`, tri-state `boolean | null`
fields become `Option Bool`, and out-of-range JS array reads (`undefined`)
are modelled with `List.getD` and an explicit default that can never compare
equal to a real cell value.  Imperative loops become folds or structural
recursions; loops that only accumulate a boolean become `List.any` / `List.all`
over the same index ranges.
-/

set_option maxRecDepth 8000

namespace Fullcust

/-- Array2D of array2d.ts: a flat row-major buffer together with its
dimensions (`nrows`/`ncols` are the JS expando properties). -/
structure Array2D (α : Type) where
  data : List α
  nrows : Nat
  ncols : Nat
deriving DecidableEq

/-- Masks are boolean Array2Ds, as in the TypeScript source. -/
abbrev Mask := Array2D Bool

/-- GridSettings of solver.ts. -/
structure GridSettings where
  height : Nat
  width : Nat
  hasOob : Bool
  commandLineRow : Nat
deriving DecidableEq

/-- Position of solver.ts; JS positions may be negative. -/
structure Position where
  x : Int
  y : Int
deriving DecidableEq

/-- Location of solver.ts. -/
structure Location where
  position : Position
  rotation : Nat
deriving DecidableEq

/-- Placement of solver.ts. -/
structure Placement where
  loc : Location
  compressed : Bool
deriving DecidableEq

/-- Constraint of solver.ts: each field is `boolean | null`. -/
structure Constraint where
  compressed : Option Bool
  onCommandLine : Option Bool
  bugged : Option Bool
deriving DecidableEq

/-- Requirement of solver.ts. -/
structure Requirement where
  partIndex : Nat
  constraint : Constraint
deriving DecidableEq

/-- Part of internal.ts (masks are Array2Ds there). -/
structure Part where
  isSolid : Bool
  color : Nat
  compressedMask : Mask
  uncompressedMask : Mask
deriving DecidableEq

/-- Default used to model a JS `undefined` element read out of range.  The
solver never reads out of range on the inputs the theorems quantify over; the
defaults only make the embedding total. -/
def defaultPart : Part := ⟨false, 0, ⟨[], 0, 0⟩, ⟨[], 0, 0⟩⟩

/-- Default Requirement for out-of-range reads; its constraint is fully
unspecified. -/
def defaultReq : Requirement := ⟨0, ⟨none, none, none⟩⟩

/-- Default Placement for out-of-range reads. -/
def defaultPlacement : Placement := ⟨⟨⟨0, 0⟩, 0⟩, false⟩

/-- array2d.full. -/
def Array2D.full {α : Type} (v : α) (nrows ncols : Nat) : Array2D α :=
  ⟨List.replicate (nrows * ncols) v, nrows, ncols⟩

/-- array2d.row: `slice(i*ncols, (i+1)*ncols)` (JS slice truncates past the
end, exactly like drop/take). -/
def Array2D.row {α : Type} (a : Array2D α) (i : Nat) : List α :=
  (a.data.drop (i * a.ncols)).take a.ncols

/-- array2d.col; the default `d` models the `undefined` a JS read past the end
would produce. -/
def Array2D.col {α : Type} (a : Array2D α) (j : Nat) (d : α) : List α :=
  (List.range a.nrows).map fun i => a.data.getD (i * a.ncols + j) d

/-- array2d.subarray. -/
def Array2D.subarray {α : Type} (a : Array2D α) (top left nrows ncols : Nat)
    (d : α) : Array2D α :=
  ⟨((List.range nrows).map fun i =>
      (List.range ncols).map fun j =>
        a.data.getD ((top + i) * a.ncols + (left + j)) d).flatten,
   nrows, ncols⟩

/-- array2d.transpose. -/
def Array2D.transpose {α : Type} (a : Array2D α) (d : α) : Array2D α :=
  ⟨((List.range a.ncols).map fun j =>
      (List.range a.nrows).map fun i => a.data.getD (i * a.ncols + j) d).flatten,
   a.ncols, a.nrows⟩

/-- array2d.flipRowsInplace, as a pure function: every row is reversed (the
in-place swap loop of the source reverses each row). -/
def Array2D.flipRows {α : Type} (a : Array2D α) : Array2D α :=
  ⟨((List.range a.nrows).map fun i => (a.row i).reverse).flatten,
   a.nrows, a.ncols⟩

/-- array2d.rot90: transpose then reverse each row, on boolean masks. -/
def rot90 (m : Mask) : Mask := (m.transpose false).flipRows

/-- array2d.equal: same dimensions and elementwise equal buffer. -/
def Array2D.equal {α : Type} [DecidableEq α] (l r : Array2D α) : Bool :=
  l.nrows == r.nrows && l.ncols == r.ncols && l.data == r.data

/-- arrayCountNumber of internal.ts. -/
def arrayCountNumber (arr : List Int) (p : Int) : Nat := arr.count p

/-- arrayCountTrue of internal.ts. -/
def arrayCountTrue (arr : List Bool) : Nat := arr.count true

/-- arrayAny of internal.ts. -/
def arrayAny (arr : List Bool) : Bool := arr.any id

/-- arrayBooleanToNumber of internal.ts (`+true = 1`, `+false = 0`). -/
def arrayBooleanToNumber (arr : List Bool) : List Int :=
  arr.map fun b => if b then 1 else 0

/-- to8BitString of internal.ts.  The JS function builds a string from the low
8 bits of every entry; we model the string by its list of character codes.
`x & 0xff` on a (small) JS integer is `x.emod 256`: `-1` becomes `255`. -/
def to8BitString (arr : List Int) : List Int := arr.map fun x => x % 256

/-- trim of internal.ts: left/top scan forward to the first non-empty
column/row, right/bottom scan backward and are then incremented. -/
def trim (m : Mask) : Mask :=
  let left := ((List.range m.ncols).find? fun j => arrayAny (m.col j false)).getD m.ncols
  let top := ((List.range m.nrows).find? fun i => arrayAny (m.row i)).getD m.nrows
  let right :=
    ((((List.range m.ncols).reverse).find? fun j => arrayAny (m.col j false)).map
      fun j => j + 1).getD 0
  let bottom :=
    ((((List.range m.nrows).reverse).find? fun i => arrayAny (m.row i)).map
      fun i => i + 1).getD 0
  m.subarray top left (bottom - top) (right - left) false

/-- Grid of internal.ts.  `cells` holds `-1` (EMPTY), `-2` (FORBIDDEN) or a
requirement index. -/
structure Grid where
  hasOob : Bool
  commandLineRow : Nat
  cells : Array2D Int
deriving DecidableEq

/-- Grid constructor: all cells EMPTY; when hasOob, the four corners become
FORBIDDEN. -/
def Grid.new (gs : GridSettings) : Grid :=
  let cells0 := Array2D.full (-1 : Int) gs.height gs.width
  let cells :=
    if gs.hasOob then
      ⟨((((cells0.data.set (0 * gs.width + 0) (-2)).set
            (0 * gs.width + (gs.width - 1)) (-2)).set
            ((gs.height - 1) * gs.width + (gs.width - 1)) (-2)).set
            ((gs.height - 1) * gs.width + 0) (-2)),
       gs.height, gs.width⟩
    else cells0
  ⟨gs.hasOob, gs.commandLineRow, cells⟩

/-- Row-major coordinate list (y, x) for the write loop of Grid.place. -/
def coordsFor (h w : Nat) : List (Nat × Nat) :=
  ((List.range h).map fun y => (List.range w).map fun x => (y, x)).flatten

/-- Write loop of Grid.place.  It threads the cell buffer and can return
`false` after having already written earlier cells, exactly as the source's
mid-loop `return false` does. -/
def placeWrite (mask : Mask) (srcTop srcLeft dstTop dstLeft : Nat)
    (reqIdx : Int) :
    List (Nat × Nat) → Array2D Int → Bool × Array2D Int
  | [], cells => (true, cells)
  | yx :: rest, cells =>
    let srcX := yx.2 + srcLeft
    let srcY := yx.1 + srcTop
    let dstX := yx.2 + dstLeft
    let dstY := yx.1 + dstTop
    if !(mask.data.getD (srcY * mask.ncols + srcX) false) then
      placeWrite mask srcTop srcLeft dstTop dstLeft reqIdx rest cells
    else if cells.ncols ≤ dstX ∨ cells.nrows ≤ dstY then
      (false, cells)
    else if cells.data.getD (dstY * cells.ncols + dstX) (-3) ≠ -1 then
      (false, cells)
    else
      placeWrite mask srcTop srcLeft dstTop dstLeft reqIdx rest
        ⟨cells.data.set (dstY * cells.ncols + dstX) reqIdx, cells.nrows, cells.ncols⟩

/-- Check loop of Grid.place: some true mask cell outside the copy window. -/
def placeBad (mask : Mask) (srcTop srcLeft dstTop dstLeft : Nat) : Bool :=
  (List.range mask.nrows).any fun y =>
    (List.range mask.ncols).any fun x =>
      !(decide (srcLeft ≤ x) && decide (srcTop ≤ y) &&
        decide (x < mask.ncols - dstLeft) && decide (y < mask.nrows - dstTop)) &&
      mask.data.getD (y * mask.ncols + x) false

/-- Body of Grid.place after the source offsets are computed. -/
def placeGo (mask : Mask) (srcTop srcLeft dstTop dstLeft : Nat) (reqIdx : Int)
    (cells : Array2D Int) : Bool × Array2D Int :=
  if placeBad mask srcTop srcLeft dstTop dstLeft then (false, cells)
  else
    placeWrite mask srcTop srcLeft dstTop dstLeft reqIdx
      (coordsFor (mask.nrows - srcTop) (mask.ncols - srcLeft)) cells

/-- Grid.place of internal.ts on the cell buffer.  The boolean is the source's
return value; the buffer is the (possibly partially written) cell state after
the call. -/
def placeCells (cells : Array2D Int) (mask : Mask) (pos : Position)
    (reqIdx : Int) : Bool × Array2D Int :=
  placeGo mask
    (if pos.y < 0 then (-pos.y).toNat else 0)
    (if pos.x < 0 then (-pos.x).toNat else 0)
    (if pos.y < 0 then 0 else pos.y.toNat)
    (if pos.x < 0 then 0 else pos.x.toNat)
    reqIdx cells

/-- Grid.place of internal.ts; only the cell buffer is touched. -/
def Grid.place (g : Grid) (mask : Mask) (pos : Position) (reqIdx : Int) :
    Bool × Grid :=
  let r := placeCells g.cells mask pos reqIdx
  (r.1, ⟨g.hasOob, g.commandLineRow, r.2⟩)

/-- partsArr2DForGrid of internal.ts: project every cell to the partIndex of
its requirement; sentinels stay -1. -/
def partsArr2DForGrid (grid : Grid) (reqs : List Requirement) : Array2D Int :=
  ⟨(List.range (grid.cells.nrows * grid.cells.ncols)).map fun k =>
      let v := grid.cells.data.getD k (-1)
      if v < 0 then -1 else ((reqs.getD v.toNat defaultReq).partIndex : Int),
   grid.cells.nrows, grid.cells.ncols⟩

/-- Fingerprint the search's `visited` set stores:
`to8BitString(partsArr2DForGrid(grid, requirements))`. -/
def gridFingerprint (g : Grid) (reqs : List Requirement) : List Int :=
  to8BitString (partsArr2DForGrid g reqs).data

/-- Cell read `grid.cells[y * ncols + x]` (in range on every grid the solver
builds; the default only totalizes the embedding). -/
def cellAt (g : Grid) (y x : Nat) : Int :=
  g.cells.data.getD (y * g.cells.ncols + x) (-1)

/-- Scan of solutionIsAdmissible setting `placementDetails[reqIdx].outOfBounds`:
a cell of requirement `i` on the ring test of the source.  The source tests
`x === 0 || x === ncols - 1 || y === nrows - 1 || x === ncols - 1`; the
duplicated last disjunct is kept faithfully (the top row `y === 0` is never
tested). -/
def reqOutOfBounds (g : Grid) (i : Int) : Bool :=
  (List.range g.cells.nrows).any fun y =>
    (List.range g.cells.ncols).any fun x =>
      cellAt g y x == i && g.hasOob &&
        (x == 0 || x == g.cells.ncols - 1 || y == g.cells.nrows - 1 ||
         x == g.cells.ncols - 1)

/-- Scan of solutionIsAdmissible setting `placementDetails[reqIdx].onCommandLine`. -/
def reqOnCommandLine (g : Grid) (i : Int) : Bool :=
  (List.range g.cells.nrows).any fun y =>
    (List.range g.cells.ncols).any fun x =>
      cellAt g y x == i && y == g.commandLineRow

/-- Scan of solutionIsAdmissible setting
`placementDetails[reqIdx].touchingSameColor`: some cell of requirement `i` has
a 4-neighbour inside the grid holding a different requirement whose part has
the same color. -/
def reqTouchingSameColor (parts : List Part) (reqs : List Requirement)
    (g : Grid) (i : Int) : Bool :=
  (List.range g.cells.nrows).any fun y =>
    (List.range g.cells.ncols).any fun x =>
      cellAt g y x == i &&
      ([((x : Int) - 1, (y : Int)), ((x : Int) + 1, (y : Int)),
        ((x : Int), (y : Int) - 1), ((x : Int), (y : Int) + 1)].any fun p =>
        !(decide (p.1 < 0) || decide ((g.cells.ncols : Int) ≤ p.1) ||
          decide (p.2 < 0) || decide ((g.cells.nrows : Int) ≤ p.2)) &&
        (let nIdx := g.cells.data.getD (p.2.toNat * g.cells.ncols + p.1.toNat) (-1)
         !(decide (nIdx < 0)) && nIdx != i &&
         ((parts.getD (reqs.getD nIdx.toNat defaultReq).partIndex defaultPart).color ==
          (parts.getD (reqs.getD i.toNat defaultReq).partIndex defaultPart).color)))

/-- Final bugged predicate of solutionIsAdmissible:
`outOfBounds || isSolid === !onCommandLine || touchingSameColor`. -/
def placementIsBuggedFinal (parts : List Part) (reqs : List Requirement)
    (g : Grid) (i : Nat) : Bool :=
  let req := reqs.getD i defaultReq
  let part := parts.getD req.partIndex defaultPart
  reqOutOfBounds g i || (part.isSolid == !reqOnCommandLine g i) ||
    reqTouchingSameColor parts reqs g i

/-- solutionIsAdmissible of internal.ts.  The imperative single scan only
accumulates per-requirement booleans by disjunction, so it is embedded as the
per-requirement existential scans above followed by the final check loop. -/
def solutionIsAdmissible (parts : List Part) (reqs : List Requirement)
    (g : Grid) : Bool :=
  (List.range reqs.length).all fun i =>
    match (reqs.getD i defaultReq).constraint.bugged with
    | none => true
    | some b => b == placementIsBuggedFinal parts reqs g i

/-- placementIsAdmissible of internal.ts. -/
def placementIsAdmissible (g : Grid) (isSolid : Bool) (reqIdx : Int)
    (onCommandLine bugged : Option Bool) : Bool :=
  let interior := (List.range g.cells.nrows).any fun y =>
    (List.range g.cells.ncols).any fun x =>
      decide (1 ≤ y) && decide (y < g.cells.nrows - 1) &&
      decide (1 ≤ x) && decide (x < g.cells.ncols - 1) &&
      (cellAt g y x == reqIdx)
  if g.hasOob && !interior then false
  else
    let outOfBounds := g.hasOob &&
      (decide (0 < arrayCountNumber (g.cells.row 0) reqIdx) ||
       decide (0 < arrayCountNumber (g.cells.col 0 (-3)) reqIdx) ||
       decide (0 < arrayCountNumber (g.cells.row (g.cells.nrows - 1)) reqIdx) ||
       decide (0 < arrayCountNumber (g.cells.col (g.cells.ncols - 1) (-3)) reqIdx))
    let placedOnCommandLine :=
      decide (0 < arrayCountNumber (g.cells.row g.commandLineRow) reqIdx)
    if onCommandLine == some true && !placedOnCommandLine then false
    else if bugged == some false && (outOfBounds || (isSolid == !placedOnCommandLine)) then
      false
    else true

/-- Location-and-mask pair produced by placementLocationsAndMasksForMask. -/
structure LocMask where
  loc : Location
  mask : Mask
deriving DecidableEq

/-- Candidate of internal.ts. -/
structure Candidate where
  placement : Placement
  mask : Mask
deriving DecidableEq

/-- placementPositionsForMask of internal.ts: positions
`y ∈ [-nrows+1, nrows-1]`, `x ∈ [-ncols+1, ncols-1]` in row-major order whose
stamp on a fresh grid succeeds and is locally admissible. -/
def placementPositionsForMask (mask : Mask) (isSolid : Bool)
    (gs : GridSettings) (onCommandLine bugged : Option Bool) : List Position :=
  ((List.range (2 * mask.nrows - 1)).map fun k =>
      (k : Int) + (1 - (mask.nrows : Int))).flatMap fun y =>
    ((List.range (2 * mask.ncols - 1)).map fun k =>
        (k : Int) + (1 - (mask.ncols : Int))).filterMap fun x =>
      let pos : Position := ⟨x, y⟩
      let r := (Grid.new gs).place mask pos 0
      if r.1 && placementIsAdmissible r.2 isSolid 0 onCommandLine bugged then
        some pos
      else none

/-- Byte-string fingerprint of a trimmed mask, as stored in `knownMasks`:
`to8BitString(arrayBooleanToNumber(trim(mask)))`.  The flattened buffer loses
the shape, exactly like the JS string. -/
def maskFp (m : Mask) : List Int := to8BitString (arrayBooleanToNumber (trim m).data)

/-- Rotation loop `for (let i = 1; i < 4; ++i)` of
placementLocationsAndMasksForMask: the mask advances by rot90 on every
iteration; an iteration whose trimmed fingerprint was already seen emits
nothing but still advances the mask. -/
def spinGo (isSolid : Bool) (gs : GridSettings)
    (onCommandLine bugged : Option Bool) :
    List Nat → Mask → List (List Int) → List LocMask
  | [], _, _ => []
  | i :: is, m, known =>
    let m2 := rot90 m
    let fp := maskFp m2
    if fp ∈ known then spinGo isSolid gs onCommandLine bugged is m2 known
    else
      ((placementPositionsForMask m2 isSolid gs onCommandLine bugged).map
        fun p => (⟨⟨p, i⟩, m2⟩ : LocMask)) ++
      spinGo isSolid gs onCommandLine bugged is m2 (fp :: known)

/-- placementLocationsAndMasksForMask of internal.ts. -/
def placementLocationsAndMasksForMask (mask : Mask) (isSolid : Bool)
    (gs : GridSettings) (onCommandLine bugged : Option Bool)
    (spinnable : Bool) : List LocMask :=
  let base := (placementPositionsForMask mask isSolid gs onCommandLine bugged).map
    fun p => (⟨⟨p, 0⟩, mask⟩ : LocMask)
  if spinnable then
    base ++ spinGo isSolid gs onCommandLine bugged [1, 2, 3] mask [maskFp mask]
  else base

/-- candidatesForPart of internal.ts.  Note that in the third branch
(`compressed` unspecified with differing masks) the source enumerates
`part.compressedMask` in BOTH passes; this is kept faithfully. -/
def candidatesForPart (part : Part) (gs : GridSettings)
    (constraint : Constraint) (spinnable : Bool) : List Candidate :=
  if constraint.compressed == some true ||
      Array2D.equal part.compressedMask part.uncompressedMask then
    (placementLocationsAndMasksForMask part.compressedMask part.isSolid gs
        constraint.onCommandLine constraint.bugged spinnable).map
      fun lm => (⟨⟨lm.loc, true⟩, lm.mask⟩ : Candidate)
  else if constraint.compressed == some false then
    (placementLocationsAndMasksForMask part.uncompressedMask part.isSolid gs
        constraint.onCommandLine constraint.bugged spinnable).map
      fun lm => (⟨⟨lm.loc, false⟩, lm.mask⟩ : Candidate)
  else
    ((placementLocationsAndMasksForMask part.compressedMask part.isSolid gs
        constraint.onCommandLine constraint.bugged spinnable).map
      fun lm => (⟨⟨lm.loc, true⟩, lm.mask⟩ : Candidate)) ++
    ((placementLocationsAndMasksForMask part.compressedMask part.isSolid gs
        constraint.onCommandLine constraint.bugged spinnable).map
      fun lm => (⟨⟨lm.loc, false⟩, lm.mask⟩ : Candidate))

/-- requirementsAreAdmissible of internal.ts.  `availableSquares` is signed in
JS (it can go negative on tiny grids), hence the Int arithmetic. -/
def requirementsAreAdmissible (parts : List Part) (reqs : List Requirement)
    (gs : GridSettings) : Bool :=
  let commandLineParts := reqs.countP fun r => r.constraint.onCommandLine == some true
  if gs.width < commandLineParts then false
  else
    let occupiedSquares := (reqs.map fun r =>
      let part := parts.getD r.partIndex defaultPart
      if r.constraint.compressed == some false then
        arrayCountTrue part.uncompressedMask.data
      else arrayCountTrue part.compressedMask.data).sum
    let availableSquares : Int :=
      (gs.width : Int) * gs.height - (if gs.hasOob then 4 else 0)
    if availableSquares < (occupiedSquares : Int) then false else true

/-- Accumulated pair list `{ reqIdx, placement }[]` of the inner generator. -/
abbrev Raw := List (Nat × Placement)

/-- Candidate loop of the inner generator `helper` of solve: iterate the
candidates of one requirement, threading the `visited` set (`List (List Int)`
of fingerprints) left to right; `step` is the recursion into the remaining
requirements and `isLeaf` tells whether this is the last requirement in
placement order (where the global admissibility check runs). -/
def candLoop (parts : List Part) (reqs : List Requirement)
    (step : Grid → List (List Int) → List Raw × List (List Int))
    (isLeaf : Bool) (ri : Nat) :
    List Candidate → Grid → List (List Int) → List Raw × List (List Int)
  | [], _, vis => ([], vis)
  | c :: cs, grid, vis =>
    let req := reqs.getD ri defaultReq
    let part := parts.getD req.partIndex defaultPart
    let pr := grid.place c.mask c.placement.loc.position (ri : Int)
    if !pr.1 then candLoop parts reqs step isLeaf ri cs grid vis
    else if !placementIsAdmissible pr.2 part.isSolid (ri : Int)
        req.constraint.onCommandLine req.constraint.bugged then
      candLoop parts reqs step isLeaf ri cs grid vis
    else
      let fp := gridFingerprint pr.2 reqs
      if fp ∈ vis then candLoop parts reqs step isLeaf ri cs grid vis
      else
        let sv := step pr.2 (fp :: vis)
        let sols := sv.1.filterMap fun sub =>
          if isLeaf && !solutionIsAdmissible parts reqs pr.2 then none
          else some (sub ++ [(ri, c.placement)])
        let more := candLoop parts reqs step isLeaf ri cs grid sv.2
        (sols ++ more.1, more.2)

/-- Inner generator `helper(grid, candidateIdx)` of solve, fully enumerated:
returns the emitted raw pair lists (deepest placement first, since each level
pushes its own pair onto the returned list) together with the final `visited`
set. -/
def helperGo (parts : List Part) (reqs : List Requirement) :
    List (Nat × List Candidate) → Grid → List (List Int) →
      List Raw × List (List Int)
  | [], _, vis => ([[]], vis)
  | (ri, cands) :: rest, grid, vis =>
    candLoop parts reqs (fun g v => helperGo parts reqs rest g v)
      rest.isEmpty ri cands grid vis

/-- Per-requirement candidate lists `[i, candidatesForPart(...)]` of solve. -/
def solveCandidates (parts : List Part) (reqs : List Requirement)
    (gs : GridSettings) (spinnableColors : List Bool) :
    List (Nat × List Candidate) :=
  (List.range reqs.length).map fun i =>
    let req := reqs.getD i defaultReq
    let part := parts.getD req.partIndex defaultPart
    (i, candidatesForPart part gs req.constraint
      (spinnableColors.getD part.color false))

/-- Comparator of the candidate sort of solve: fewer candidates first, ties by
original requirement index.  The JS comparator is a total strict order on the
(distinct) indices, so its sort result is the unique sorted permutation, which
insertion sort by this relation also produces. -/
def candOrder : (Nat × List Candidate) → (Nat × List Candidate) → Prop :=
  fun a b => a.2.length < b.2.length ∨ (a.2.length = b.2.length ∧ a.1 ≤ b.1)

instance : DecidableRel candOrder := fun a b =>
  decidable_of_iff
    (a.2.length < b.2.length ∨ (a.2.length = b.2.length ∧ a.1 ≤ b.1)) Iff.rfl

/-- Sorted candidate lists of solve (the placement order of the search). -/
def sortedCandidates (parts : List Part) (reqs : List Requirement)
    (gs : GridSettings) (spinnableColors : List Bool) :
    List (Nat × List Candidate) :=
  List.insertionSort candOrder (solveCandidates parts reqs gs spinnableColors)

/-- Comparator of the emission sort `raw.sort((i, j) => i - j)` on reqIdx. -/
def pairLE : (Nat × Placement) → (Nat × Placement) → Prop :=
  fun a b => a.1 ≤ b.1

instance : DecidableRel pairLE := fun a b =>
  decidable_of_iff (a.1 ≤ b.1) Iff.rfl

instance : IsTotal (Nat × Placement) pairLE :=
  ⟨fun a b => Nat.le_total a.1 b.1⟩

instance : IsTrans (Nat × Placement) pairLE :=
  ⟨fun _ _ _ h1 h2 => Nat.le_trans h1 h2⟩

/-- Emission sort of solve (reqIdx values in a raw are distinct, so the JS
sort result is again the unique sorted permutation). -/
def sortPairs (raw : Raw) : Raw := List.insertionSort pairLE raw

/-- Raw pair lists emitted by one invocation of solve's inner generator. -/
def solveRaws (parts : List Part) (reqs : List Requirement)
    (gs : GridSettings) (spinnableColors : List Bool) : List Raw :=
  (helperGo parts reqs (sortedCandidates parts reqs gs spinnableColors)
    (Grid.new gs) []).1

/-- solve of internal.ts, with the lazy generator fully enumerated into the
list of emitted solutions, in emission order. -/
def solve (parts : List Part) (reqs : List Requirement) (gs : GridSettings)
    (spinnableColors : List Bool) : List (List Placement) :=
  if gs.height < gs.commandLineRow then []
  else if !requirementsAreAdmissible parts reqs gs then []
  else
    (solveRaws parts reqs gs spinnableColors).map fun raw =>
      (sortPairs raw).map Prod.snd

/-- Cumulative rotation `for (let j = 0; j < rotation; ++j) mask = rot90(mask)`. -/
def rotNTimes : Nat → Mask → Mask
  | 0, m => m
  | n + 1, m => rotNTimes n (rot90 m)

/-- Mask-selection loop body of placeAll.  The source reads
`placement.compressed ? part.compressedMask : part.compressedMask` — both
branches reference the compressed mask; this is kept faithfully. -/
def placeAllLoop (parts : List Part) (reqs : List Requirement) :
    Nat → List Placement → Grid → Option Grid
  | _, [], g => some g
  | i, pl :: pls, g =>
    let req := reqs.getD i defaultReq
    let part := parts.getD req.partIndex defaultPart
    let mask0 := if pl.compressed then part.compressedMask else part.compressedMask
    let mask := rotNTimes pl.loc.rotation mask0
    let r := g.place mask pl.loc.position (i : Int)
    if !r.1 then none else placeAllLoop parts reqs (i + 1) pls r.2

/-- placeAll of internal.ts: `none` is the JS `null`, and in the returned cell
array `none` is the JS `undefined` of a sentinel cell. -/
def placeAll (parts : List Part) (reqs : List Requirement)
    (placements : List Placement) (gs : GridSettings) :
    Option (List (Option Int)) :=
  match placeAllLoop parts reqs 0 placements (Grid.new gs) with
  | none => none
  | some g => some (g.cells.data.map fun v => if v < 0 then none else some v)

/-- Base mask a candidate of candidatesForPart is generated from, as a function
of the constraint and the candidate's compressed tag (mirrors the branch
structure of candidatesForPart, including the third-branch mask reuse). -/
def baseMaskFor (part : Part) (constraint : Constraint) (compressed : Bool) : Mask :=
  if compressed then part.compressedMask
  else if constraint.compressed == some false then part.uncompressedMask
  else part.compressedMask

/-- Mask the search stamps for the pair `(ri, placement)`: the base mask of the
requirement's part rotated `placement.loc.rotation` times.  This recovers the
candidate's mask from the emitted placement. -/
def maskForPlacement (parts : List Part) (reqs : List Requirement) (ri : Nat)
    (pl : Placement) : Mask :=
  let req := reqs.getD ri defaultReq
  let part := parts.getD req.partIndex defaultPart
  rotNTimes pl.loc.rotation (baseMaskFor part req.constraint pl.compressed)

/-- Replay of a raw pair list on a grid, stamping in the search's own order
(the raw list holds the deepest placement first, so a right fold applies the
outermost placement first, exactly as the search did). -/
def stampFrom (parts : List Part) (reqs : List Requirement) (raw : Raw)
    (g : Grid) : Grid :=
  raw.foldr
    (fun p g =>
      (g.place (maskForPlacement parts reqs p.1 p.2) p.2.loc.position (p.1 : Int)).2)
    g

/-- Requirement indices in placement order. -/
def sortedIdx (parts : List Part) (reqs : List Requirement) (gs : GridSettings)
    (spinnableColors : List Bool) : List Nat :=
  (sortedCandidates parts reqs gs spinnableColors).map Prod.fst

/-- Raw pair list reconstructed from an emitted solution: entry `i` of the
solution is the placement of requirement `i`, re-paired in reverse placement
order. -/
def rawOfSolution (parts : List Part) (reqs : List Requirement)
    (gs : GridSettings) (spinnableColors : List Bool)
    (sol : List Placement) : Raw :=
  (sortedIdx parts reqs gs spinnableColors).reverse.map
    fun ri => (ri, sol.getD ri defaultPlacement)

/-- Grid materialized from an emitted solution, stamping the search's masks in
the search's order. -/
def materializedGrid (parts : List Part) (reqs : List Requirement)
    (gs : GridSettings) (spinnableColors : List Bool)
    (sol : List Placement) : Grid :=
  stampFrom parts reqs (rawOfSolution parts reqs gs spinnableColors sol)
    (Grid.new gs)

/-- Part-identity projection of the grid materialized from a solution. -/
def partIdentityGrid (parts : List Part) (reqs : List Requirement)
    (gs : GridSettings) (spinnableColors : List Bool)
    (sol : List Placement) : Array2D Int :=
  partsArr2DForGrid (materializedGrid parts reqs gs spinnableColors sol) reqs

/-- Ring test as the spec (section 4.E) words it: any cell of the requirement
in the outer ring — top row, bottom row, leftmost or rightmost column.  Used
only to compare the source's global check against the spec's words. -/
def reqOutOfBoundsSpec (g : Grid) (i : Int) : Bool :=
  (List.range g.cells.nrows).any fun y =>
    (List.range g.cells.ncols).any fun x =>
      cellAt g y x == i && g.hasOob &&
        (x == 0 || x == g.cells.ncols - 1 || y == 0 || y == g.cells.nrows - 1)

/-- Final bugged predicate with the spec's ring test. -/
def placementIsBuggedFinalSpec (parts : List Part) (reqs : List Requirement)
    (g : Grid) (i : Nat) : Bool :=
  let req := reqs.getD i defaultReq
  let part := parts.getD req.partIndex defaultPart
  reqOutOfBoundsSpec g i || (part.isSolid == !reqOnCommandLine g i) ||
    reqTouchingSameColor parts reqs g i

/-- Global admissibility check as the spec words it (section 4.E). -/
def solutionIsAdmissibleSpec (parts : List Part) (reqs : List Requirement)
    (g : Grid) : Bool :=
  (List.range reqs.length).all fun i =>
    match (reqs.getD i defaultReq).constraint.bugged with
    | none => true
    | some b => b == placementIsBuggedFinalSpec parts reqs g i

/-! Concrete inputs used by the counterexamples, the code-bug evaluations and
the witnesses. -/

/-- One-cell mask. -/
def mask1x1 : Mask := ⟨[true], 1, 1⟩

/-- Horizontal domino mask. -/
def mask1x2 : Mask := ⟨[true, true], 1, 2⟩

/-- Part whose compressed and uncompressed masks are equal (one cell), solid. -/
def partEq : Part := ⟨true, 0, mask1x1, mask1x1⟩

/-- Part whose compressed (one cell) and uncompressed (domino) masks differ. -/
def partNe : Part := ⟨false, 0, mask1x1, mask1x2⟩

/-- Two-by-two grid settings without out-of-bounds ring, command line row 0. -/
def gs2x2 : GridSettings := ⟨2, 2, false, 0⟩

/-- Requirement of partEq with `compressed = no`, `onCommandLine = no`,
`bugged` unspecified. -/
def reqsA : List Requirement := [⟨0, ⟨some false, some false, none⟩⟩]

/-- Solution solve emits for `[partEq]`, reqsA, gs2x2: the single 1x1 placement
at the origin, tagged compressed. -/
def solA : List Placement := [⟨⟨⟨0, 0⟩, 0⟩, true⟩]

/-- Requirement of partEq with `onCommandLine = yes`. -/
def reqsW : List Requirement := [⟨0, ⟨none, some true, none⟩⟩]

/-- Requirement of partNe with every constraint unspecified. -/
def reqsNe : List Requirement := [⟨0, ⟨none, none, none⟩⟩]

/-- Placement at the origin, rotation 0, tagged uncompressed. -/
def plUncompressed : Placement := ⟨⟨⟨0, 0⟩, 0⟩, false⟩

/-- Grid state exercising the partial mutation of Grid.place: one empty cell
followed by a cell owned by requirement 5. -/
def gridC5 : Grid := ⟨false, 0, ⟨[-1, 5], 1, 2⟩⟩

/-- Four-by-four completed grid with the out-of-bounds ring active and command
line row 1: requirement 0 occupies (y = 0, x = 1) on the top row and
(y = 1, x = 1) on the command line; corners are forbidden. -/
def gridC4 : Grid :=
  ⟨true, 1, ⟨[-2, 0, -1, -2,  -1, 0, -1, -1,  -1, -1, -1, -1,  -2, -1, -1, -2], 4, 4⟩⟩

/-- Solid part of color 0 with equal one-cell masks, for the gridC4 scenario. -/
def partsC4 : List Part := [⟨true, 0, mask1x1, mask1x1⟩]

/-- Requirement demanding `bugged = yes` for the gridC4 scenario. -/
def reqsC4 : List Requirement := [⟨0, ⟨none, none, some true⟩⟩]

/-- Tiny settings with the out-of-bounds ring on a one-cell grid
(`width * height - 4` is negative). -/
def gs1x1Oob : GridSettings := ⟨1, 1, true, 0⟩

/-! Invariant predicates for the search proofs. -/

/-- Compressed-tag discipline of every candidate candidatesForPart emits: a
specified `compressed` constraint forces the tag, except that equal masks
force the tag to `true` (first branch of candidatesForPart). -/
def PlOk (parts : List Part) (reqs : List Requirement)
    (p : Nat × Placement) : Prop :=
  ∀ b, (reqs.getD p.1 defaultReq).constraint.compressed = some b →
    p.2.compressed = (b ||
      Array2D.equal
        (parts.getD (reqs.getD p.1 defaultReq).partIndex defaultPart).compressedMask
        (parts.getD (reqs.getD p.1 defaultReq).partIndex defaultPart).uncompressedMask)

/-- Command-line discipline of a placed pair on a grid: a requirement whose
constraint demands the command line owns a cell on that row. -/
def CmdOk (reqs : List Requirement) (g : Grid) (p : Nat × Placement) : Prop :=
  (reqs.getD p.1 defaultReq).constraint.onCommandLine = some true →
    0 < arrayCountNumber (g.cells.row g.commandLineRow) (p.1 : Int)

/-- Facts about one candidate of requirement `ri` as candidatesForPart emits
it: its mask is recovered by maskForPlacement, and its tag obeys PlOk. -/
def CandOk (parts : List Part) (reqs : List Requirement) (ri : Nat)
    (c : Candidate) : Prop :=
  c.mask = maskForPlacement parts reqs ri c.placement ∧
  PlOk parts reqs (ri, c.placement)

/-- Candidate-list discipline for a whole (sorted or unsorted) pair list. -/
def GoodCands (parts : List Part) (reqs : List Requirement)
    (cl : List (Nat × List Candidate)) : Prop :=
  ∀ p ∈ cl, ∀ c ∈ p.2, CandOk parts reqs p.1 c

/-- Behaviour of the recursion into the remaining requirement list `rest`
(instantiated with `helperGo parts reqs rest`): the visited set grows
monotonically; at the base the single empty raw is returned; every returned
raw replays to a grid whose fingerprint was freshly inserted, passes the
global admissibility check and satisfies the command-line discipline; and the
returned raws have pairwise distinct replay fingerprints. -/
def StepSpec (parts : List Part) (reqs : List Requirement)
    (rest : List (Nat × List Candidate))
    (step : Grid → List (List Int) → List Raw × List (List Int)) : Prop :=
  ∀ grid vis,
    (∀ f ∈ vis, f ∈ (step grid vis).2) ∧
    (rest = [] → step grid vis = ([[]], vis)) ∧
    (∀ sub ∈ (step grid vis).1,
      sub.map Prod.fst = (rest.map Prod.fst).reverse ∧
      (∀ p ∈ sub, PlOk parts reqs p) ∧
      (rest ≠ [] →
        gridFingerprint (stampFrom parts reqs sub grid) reqs ∈ (step grid vis).2 ∧
        gridFingerprint (stampFrom parts reqs sub grid) reqs ∉ vis ∧
        solutionIsAdmissible parts reqs (stampFrom parts reqs sub grid) = true ∧
        ∀ p ∈ sub, CmdOk reqs (stampFrom parts reqs sub grid) p)) ∧
    (step grid vis).1.Pairwise (fun s t => rest ≠ [] →
      gridFingerprint (stampFrom parts reqs s grid) reqs ≠
        gridFingerprint (stampFrom parts reqs t grid) reqs)

/-- Conclusion of the candidate-loop lemma: like StepSpec one level up, with
the current requirement's pair appended to every raw and no emptiness guard. -/
def CandLoopOut (parts : List Part) (reqs : List Requirement)
    (restIdx : List Nat) (ri : Nat) (grid : Grid) (vis : List (List Int))
    (out : List Raw × List (List Int)) : Prop :=
  (∀ f ∈ vis, f ∈ out.2) ∧
  (∀ raw ∈ out.1,
    raw.map Prod.fst = restIdx.reverse ++ [ri] ∧
    (∀ p ∈ raw, PlOk parts reqs p) ∧
    gridFingerprint (stampFrom parts reqs raw grid) reqs ∈ out.2 ∧
    gridFingerprint (stampFrom parts reqs raw grid) reqs ∉ vis ∧
    solutionIsAdmissible parts reqs (stampFrom parts reqs raw grid) = true ∧
    ∀ p ∈ raw, CmdOk reqs (stampFrom parts reqs raw grid) p) ∧
  out.1.Pairwise (fun s t =>
    gridFingerprint (stampFrom parts reqs s grid) reqs ≠
      gridFingerprint (stampFrom parts reqs t grid) reqs)

/-! Grid shape and preservation lemmas. -/

/-- placeWrite never changes the dimensions or the buffer length. -/
theorem placeWrite_shape (mask : Mask) (a b c d : Nat) (r : Int) :
    ∀ (coords : List (Nat × Nat)) (cells : Array2D Int),
      (placeWrite mask a b c d r coords cells).2.nrows = cells.nrows ∧
      (placeWrite mask a b c d r coords cells).2.ncols = cells.ncols ∧
      (placeWrite mask a b c d r coords cells).2.data.length = cells.data.length := by
  intro coords
  induction coords with
  | nil => intro cells; simp [placeWrite]
  | cons yx rest ih =>
    intro cells
    simp only [placeWrite]
    split
    · exact ih cells
    · split
      · exact ⟨rfl, rfl, rfl⟩
      · split
        · exact ⟨rfl, rfl, rfl⟩
        · simpa using ih ⟨cells.data.set _ r, cells.nrows, cells.ncols⟩

/-- placeWrite writes only cells that currently hold EMPTY, so any cell
holding a value other than -1 keeps it. -/
theorem placeWrite_preserve (mask : Mask) (a b c d : Nat) (r : Int)
    (v : Int) (hv : v ≠ -1) :
    ∀ (coords : List (Nat × Nat)) (cells : Array2D Int) (j : Nat),
      cells.data[j]? = some v →
      (placeWrite mask a b c d r coords cells).2.data[j]? = some v := by
  intro coords
  induction coords with
  | nil => intro cells j hj; simpa [placeWrite] using hj
  | cons yx rest ih =>
    intro cells j hj
    simp only [placeWrite]
    split
    · exact ih cells j hj
    · split
      · exact hj
      · split
        · exact hj
        · rename_i hempty
          apply ih
          have hk : (yx.1 + c) * cells.ncols + (yx.2 + d) ≠ j := by
            intro hkj
            apply hv
            have h1 : cells.data.getD ((yx.1 + c) * cells.ncols + (yx.2 + d)) (-3) = -1 := by
              simpa using hempty
            rw [List.getD_eq_getElem?_getD, hkj, hj] at h1
            simpa using h1
          simp only [List.getElem?_set, if_neg hk]
          exact hj

/-- placeGo never changes the dimensions or the buffer length. -/
theorem placeGo_shape (mask : Mask) (a b c d : Nat) (r : Int)
    (cells : Array2D Int) :
    (placeGo mask a b c d r cells).2.nrows = cells.nrows ∧
    (placeGo mask a b c d r cells).2.ncols = cells.ncols ∧
    (placeGo mask a b c d r cells).2.data.length = cells.data.length := by
  unfold placeGo
  split
  · exact ⟨rfl, rfl, rfl⟩
  · exact placeWrite_shape mask a b c d r _ cells

/-- placeGo keeps every cell holding a non-EMPTY value. -/
theorem placeGo_preserve (mask : Mask) (a b c d : Nat) (r : Int)
    (cells : Array2D Int) (v : Int) (hv : v ≠ -1) (j : Nat)
    (hj : cells.data[j]? = some v) :
    (placeGo mask a b c d r cells).2.data[j]? = some v := by
  unfold placeGo
  split
  · exact hj
  · exact placeWrite_preserve mask a b c d r v hv _ cells j hj

/-- Grid.place keeps the flags, the dimensions and the buffer length. -/
theorem place_shape (g : Grid) (mask : Mask) (pos : Position) (r : Int) :
    (g.place mask pos r).2.hasOob = g.hasOob ∧
    (g.place mask pos r).2.commandLineRow = g.commandLineRow ∧
    (g.place mask pos r).2.cells.nrows = g.cells.nrows ∧
    (g.place mask pos r).2.cells.ncols = g.cells.ncols ∧
    (g.place mask pos r).2.cells.data.length = g.cells.data.length := by
  refine ⟨rfl, rfl, ?_, ?_, ?_⟩
  · exact (placeGo_shape ..).1
  · exact (placeGo_shape ..).2.1
  · exact (placeGo_shape ..).2.2

/-- Grid.place keeps every cell holding a non-EMPTY value. -/
theorem place_preserve (g : Grid) (mask : Mask) (pos : Position) (r : Int)
    (v : Int) (hv : v ≠ -1) (j : Nat) (hj : g.cells.data[j]? = some v) :
    (g.place mask pos r).2.cells.data[j]? = some v :=
  placeGo_preserve mask _ _ _ _ r g.cells v hv j hj

/-- stampFrom keeps the flags, the dimensions and the buffer length. -/
theorem stampFrom_shape (parts : List Part) (reqs : List Requirement) :
    ∀ (raw : Raw) (g : Grid),
      (stampFrom parts reqs raw g).hasOob = g.hasOob ∧
      (stampFrom parts reqs raw g).commandLineRow = g.commandLineRow ∧
      (stampFrom parts reqs raw g).cells.nrows = g.cells.nrows ∧
      (stampFrom parts reqs raw g).cells.ncols = g.cells.ncols ∧
      (stampFrom parts reqs raw g).cells.data.length = g.cells.data.length := by
  intro raw
  induction raw with
  | nil => intro g; exact ⟨rfl, rfl, rfl, rfl, rfl⟩
  | cons p raw ih =>
    intro g
    have h1 := ih g
    have h2 := place_shape (stampFrom parts reqs raw g)
      (maskForPlacement parts reqs p.1 p.2) p.2.loc.position (p.1 : Int)
    exact ⟨h2.1.trans h1.1, h2.2.1.trans h1.2.1, h2.2.2.1.trans h1.2.2.1,
      h2.2.2.2.1.trans h1.2.2.2.1, h2.2.2.2.2.trans h1.2.2.2.2⟩

/-- stampFrom keeps every cell holding a non-EMPTY value. -/
theorem stampFrom_preserve (parts : List Part) (reqs : List Requirement)
    (v : Int) (hv : v ≠ -1) :
    ∀ (raw : Raw) (g : Grid) (j : Nat),
      g.cells.data[j]? = some v →
      (stampFrom parts reqs raw g).cells.data[j]? = some v := by
  intro raw
  induction raw with
  | nil => intro g j hj; exact hj
  | cons p raw ih =>
    intro g j hj
    exact place_preserve _ _ _ _ v hv j (ih g j hj)

/-- stampFrom after appending one pair: the appended pair is stamped first. -/
theorem stampFrom_append (parts : List Part) (reqs : List Requirement)
    (raw : Raw) (p : Nat × Placement) (g : Grid) :
    stampFrom parts reqs (raw ++ [p]) g =
      stampFrom parts reqs raw
        ((g.place (maskForPlacement parts reqs p.1 p.2) p.2.loc.position
          (p.1 : Int)).2) := by
  simp [stampFrom, List.foldr_append]

/-- A row of a grid, read at an index, is the underlying buffer read at the
row-major index. -/
theorem row_getElem (a : Array2D Int) (r j : Nat) (hj : j < (a.row r).length)
    (hidx : r * a.ncols + j < a.data.length) :
    (a.row r)[j] = a.data[r * a.ncols + j] := by
  simp only [Array2D.row]
  rw [List.getElem_take, List.getElem_drop]

/-- Length of a row slice only depends on the buffer length and the column
count. -/
theorem row_length (a : Array2D Int) (r : Nat) :
    (a.row r).length = min a.ncols (a.data.length - r * a.ncols) := by
  simp [Array2D.row]

/-- A positive count of a non-EMPTY value in a row survives any pointwise
cell-preserving grid transformation of the same shape. -/
theorem count_row_pos_preserve (g g' : Grid) (r : Nat) (v : Int)
    (hlen : g'.cells.data.length = g.cells.data.length)
    (hcol : g'.cells.ncols = g.cells.ncols)
    (hpt : ∀ j : Nat, g.cells.data[j]? = some v → g'.cells.data[j]? = some v)
    (h : 0 < arrayCountNumber (g.cells.row r) v) :
    0 < arrayCountNumber (g'.cells.row r) v := by
  rw [arrayCountNumber, List.count_pos_iff] at h ⊢
  rw [List.mem_iff_getElem] at h ⊢
  obtain ⟨j, hj, hval⟩ := h
  have hlenrow : (g'.cells.row r).length = (g.cells.row r).length := by
    rw [row_length, row_length, hlen, hcol]
  have hj2 : j < (g'.cells.row r).length := by omega
  refine ⟨j, hj2, ?_⟩
  have hidx : r * g.cells.ncols + j < g.cells.data.length := by
    have := row_length g.cells r
    omega
  have hidx2 : r * g'.cells.ncols + j < g'.cells.data.length := by
    rw [hcol, hlen]
    omega
  rw [row_getElem g.cells r j hj hidx] at hval
  rw [row_getElem g'.cells r j hj2 hidx2]
  have h1 : g.cells.data[r * g.cells.ncols + j]? = some v := by
    rw [List.getElem?_eq_getElem hidx]
    exact congrArg some hval
  have h2 := hpt _ h1
  simp only [hcol]
  rw [List.getElem?_eq_getElem (by omega : r * g.cells.ncols + j < g'.cells.data.length)] at h2
  exact Option.some.inj h2

/-! Admissibility extraction lemmas. -/

/-- A locally admissible placement with `onCommandLine = yes` has a cell of
its requirement on the command line row. -/
theorem placementIsAdmissible_cmdline (g : Grid) (isSolid : Bool)
    (reqIdx : Int) (bugged : Option Bool)
    (h : placementIsAdmissible g isSolid reqIdx (some true) bugged = true) :
    0 < arrayCountNumber (g.cells.row g.commandLineRow) reqIdx := by
  by_contra hp
  unfold placementIsAdmissible at h
  rw [decide_eq_false hp] at h
  dsimp only at h
  split at h
  · exact Bool.noConfusion h
  · split at h
    · exact Bool.noConfusion h
    · rename_i hcond
      exact hcond (by rfl)

/-- A grid accepted by the global admissibility check realizes every specified
bugged constraint via the code's final bugged predicate. -/
theorem solutionIsAdmissible_bugged (parts : List Part)
    (reqs : List Requirement) (g : Grid)
    (h : solutionIsAdmissible parts reqs g = true) (i : Nat) (b : Bool)
    (hb : (reqs.getD i defaultReq).constraint.bugged = some b) :
    placementIsBuggedFinal parts reqs g i = b := by
  by_cases hi : i < reqs.length
  · unfold solutionIsAdmissible at h
    rw [List.all_eq_true] at h
    have h2 := h i (List.mem_range.mpr hi)
    rw [hb] at h2
    exact (eq_of_beq h2).symm
  · rw [List.getD_eq_default _ _ (Nat.le_of_not_lt hi)] at hb
    exact absurd hb (by simp [defaultReq])

/-! Candidate generator lemmas. -/

/-- Every location the rotation loop emits carries the cumulative rotation of
the starting mask recorded in its rotation index. -/
theorem spinGo_ok (isSolid : Bool) (gs : GridSettings)
    (oc bugged : Option Bool) :
    ∀ (is : List Nat) (m : Mask) (known : List (List Int)),
      ∀ lm ∈ spinGo isSolid gs oc bugged is m known,
        ∃ j, j < is.length ∧ lm.loc.rotation = is.getD j 0 ∧
          lm.mask = rotNTimes (j + 1) m := by
  intro is
  induction is with
  | nil => intro m known lm hm; simp [spinGo] at hm
  | cons i is ih =>
    intro m known lm hm
    simp only [spinGo] at hm
    split at hm
    · obtain ⟨j, hj, h1, h2⟩ := ih (rot90 m) known lm hm
      exact ⟨j + 1, by simpa using hj, by simpa using h1, h2⟩
    · rcases List.mem_append.mp hm with hmem | hmem
      · rcases List.mem_map.mp hmem with ⟨p, hp, rfl⟩
        exact ⟨0, by simp, rfl, rfl⟩
      · obtain ⟨j, hj, h1, h2⟩ := ih (rot90 m) _ lm hmem
        exact ⟨j + 1, by simpa using hj, by simpa using h1, h2⟩

/-- Every emitted location-and-mask pair carries the starting mask rotated as
often as its recorded rotation. -/
theorem locMasks_mask (mask : Mask) (isSolid : Bool) (gs : GridSettings)
    (oc bugged : Option Bool) (spinnable : Bool) :
    ∀ lm ∈ placementLocationsAndMasksForMask mask isSolid gs oc bugged spinnable,
      lm.mask = rotNTimes lm.loc.rotation mask := by
  intro lm hm
  unfold placementLocationsAndMasksForMask at hm
  have hbase : ∀ lm', lm' ∈ (placementPositionsForMask mask isSolid gs oc bugged).map
      (fun p => (⟨⟨p, 0⟩, mask⟩ : LocMask)) →
      lm'.mask = rotNTimes lm'.loc.rotation mask := by
    intro lm' hm'
    rcases List.mem_map.mp hm' with ⟨p, hp, rfl⟩
    rfl
  split at hm
  · rcases List.mem_append.mp hm with hmem | hmem
    · exact hbase lm hmem
    · obtain ⟨j, hj, h1, h2⟩ := spinGo_ok isSolid gs oc bugged [1, 2, 3] mask _ lm hmem
      have hj3 : j < 3 := by simpa using hj
      have hrot : lm.loc.rotation = j + 1 := by
        interval_cases j <;> simpa using h1
      rw [hrot, h2]
  · exact hbase lm hm

/-- Every candidate candidatesForPart emits satisfies CandOk: its mask is the
maskForPlacement reconstruction and its compressed tag obeys PlOk (including
the equal-masks exception of the first branch). -/
theorem candidatesForPart_ok (parts : List Part) (reqs : List Requirement)
    (gs : GridSettings) (spinnable : Bool) (ri : Nat) :
    ∀ c ∈ candidatesForPart
        (parts.getD (reqs.getD ri defaultReq).partIndex defaultPart) gs
        (reqs.getD ri defaultReq).constraint spinnable,
      CandOk parts reqs ri c := by
  intro c hc
  unfold candidatesForPart at hc
  rcases hcomp : (reqs.getD ri defaultReq).constraint.compressed with _ | b
  case none =>
    rw [hcomp] at hc
    rcases heq : Array2D.equal
        (parts.getD (reqs.getD ri defaultReq).partIndex defaultPart).compressedMask
        (parts.getD (reqs.getD ri defaultReq).partIndex defaultPart).uncompressedMask
      with _ | _
    · rw [heq] at hc
      have hc2 : c ∈
          ((placementLocationsAndMasksForMask
              (parts.getD (reqs.getD ri defaultReq).partIndex defaultPart).compressedMask
              (parts.getD (reqs.getD ri defaultReq).partIndex defaultPart).isSolid gs
              (reqs.getD ri defaultReq).constraint.onCommandLine
              (reqs.getD ri defaultReq).constraint.bugged spinnable).map
            fun lm => (⟨⟨lm.loc, true⟩, lm.mask⟩ : Candidate)) ++
          ((placementLocationsAndMasksForMask
              (parts.getD (reqs.getD ri defaultReq).partIndex defaultPart).compressedMask
              (parts.getD (reqs.getD ri defaultReq).partIndex defaultPart).isSolid gs
              (reqs.getD ri defaultReq).constraint.onCommandLine
              (reqs.getD ri defaultReq).constraint.bugged spinnable).map
            fun lm => (⟨⟨lm.loc, false⟩, lm.mask⟩ : Candidate)) := hc
      rcases List.mem_append.mp hc2 with hm | hm
      · rcases List.mem_map.mp hm with ⟨lm, hlm, rfl⟩
        refine ⟨?_, ?_⟩
        · show lm.mask = rotNTimes lm.loc.rotation
            (baseMaskFor (parts.getD (reqs.getD ri defaultReq).partIndex defaultPart)
              (reqs.getD ri defaultReq).constraint true)
          exact locMasks_mask _ _ _ _ _ _ lm hlm
        · intro b hb
          rw [hcomp] at hb
          cases hb
      · rcases List.mem_map.mp hm with ⟨lm, hlm, rfl⟩
        refine ⟨?_, ?_⟩
        · show lm.mask = rotNTimes lm.loc.rotation
            (baseMaskFor (parts.getD (reqs.getD ri defaultReq).partIndex defaultPart)
              (reqs.getD ri defaultReq).constraint false)
          have hbase : baseMaskFor
              (parts.getD (reqs.getD ri defaultReq).partIndex defaultPart)
              (reqs.getD ri defaultReq).constraint false =
              (parts.getD (reqs.getD ri defaultReq).partIndex defaultPart).compressedMask := by
            unfold baseMaskFor
            rw [hcomp]
            rfl
          rw [hbase]
          exact locMasks_mask _ _ _ _ _ _ lm hlm
        · intro b hb
          rw [hcomp] at hb
          cases hb
    · rw [heq] at hc
      have hc2 : c ∈
          (placementLocationsAndMasksForMask
              (parts.getD (reqs.getD ri defaultReq).partIndex defaultPart).compressedMask
              (parts.getD (reqs.getD ri defaultReq).partIndex defaultPart).isSolid gs
              (reqs.getD ri defaultReq).constraint.onCommandLine
              (reqs.getD ri defaultReq).constraint.bugged spinnable).map
            (fun lm => (⟨⟨lm.loc, true⟩, lm.mask⟩ : Candidate)) := hc
      rcases List.mem_map.mp hc2 with ⟨lm, hlm, rfl⟩
      refine ⟨?_, ?_⟩
      · show lm.mask = rotNTimes lm.loc.rotation
          (baseMaskFor (parts.getD (reqs.getD ri defaultReq).partIndex defaultPart)
            (reqs.getD ri defaultReq).constraint true)
        exact locMasks_mask _ _ _ _ _ _ lm hlm
      · intro b hb
        rw [hcomp] at hb
        cases hb
  case some =>
    rw [hcomp] at hc
    rcases b with _ | _
    case false =>
      rcases heq : Array2D.equal
          (parts.getD (reqs.getD ri defaultReq).partIndex defaultPart).compressedMask
          (parts.getD (reqs.getD ri defaultReq).partIndex defaultPart).uncompressedMask
        with _ | _
      · rw [heq] at hc
        have hc2 : c ∈
            (placementLocationsAndMasksForMask
                (parts.getD (reqs.getD ri defaultReq).partIndex defaultPart).uncompressedMask
                (parts.getD (reqs.getD ri defaultReq).partIndex defaultPart).isSolid gs
                (reqs.getD ri defaultReq).constraint.onCommandLine
                (reqs.getD ri defaultReq).constraint.bugged spinnable).map
              (fun lm => (⟨⟨lm.loc, false⟩, lm.mask⟩ : Candidate)) := hc
        rcases List.mem_map.mp hc2 with ⟨lm, hlm, rfl⟩
        refine ⟨?_, ?_⟩
        · show lm.mask = rotNTimes lm.loc.rotation
            (baseMaskFor (parts.getD (reqs.getD ri defaultReq).partIndex defaultPart)
              (reqs.getD ri defaultReq).constraint false)
          have hbase : baseMaskFor
              (parts.getD (reqs.getD ri defaultReq).partIndex defaultPart)
              (reqs.getD ri defaultReq).constraint false =
              (parts.getD (reqs.getD ri defaultReq).partIndex defaultPart).uncompressedMask := by
            unfold baseMaskFor
            rw [hcomp]
            rfl
          rw [hbase]
          exact locMasks_mask _ _ _ _ _ _ lm hlm
        · intro b' hb'
          rw [hcomp] at hb'
          have hb2 : b' = false := (Option.some.inj hb').symm
          subst hb2
          show false = (false || Array2D.equal _ _)
          rw [Bool.false_or]
          exact heq.symm
      · rw [heq] at hc
        have hc2 : c ∈
            (placementLocationsAndMasksForMask
                (parts.getD (reqs.getD ri defaultReq).partIndex defaultPart).compressedMask
                (parts.getD (reqs.getD ri defaultReq).partIndex defaultPart).isSolid gs
                (reqs.getD ri defaultReq).constraint.onCommandLine
                (reqs.getD ri defaultReq).constraint.bugged spinnable).map
              (fun lm => (⟨⟨lm.loc, true⟩, lm.mask⟩ : Candidate)) := hc
        rcases List.mem_map.mp hc2 with ⟨lm, hlm, rfl⟩
        refine ⟨?_, ?_⟩
        · show lm.mask = rotNTimes lm.loc.rotation
            (baseMaskFor (parts.getD (reqs.getD ri defaultReq).partIndex defaultPart)
              (reqs.getD ri defaultReq).constraint true)
          exact locMasks_mask _ _ _ _ _ _ lm hlm
        · intro b' hb'
          rw [hcomp] at hb'
          have hb2 : b' = false := (Option.some.inj hb').symm
          subst hb2
          show true = (false || Array2D.equal _ _)
          rw [Bool.false_or]
          exact heq.symm
    case true =>
      have hc2 : c ∈
          (placementLocationsAndMasksForMask
              (parts.getD (reqs.getD ri defaultReq).partIndex defaultPart).compressedMask
              (parts.getD (reqs.getD ri defaultReq).partIndex defaultPart).isSolid gs
              (reqs.getD ri defaultReq).constraint.onCommandLine
              (reqs.getD ri defaultReq).constraint.bugged spinnable).map
            (fun lm => (⟨⟨lm.loc, true⟩, lm.mask⟩ : Candidate)) := hc
      rcases List.mem_map.mp hc2 with ⟨lm, hlm, rfl⟩
      refine ⟨?_, ?_⟩
      · show lm.mask = rotNTimes lm.loc.rotation
          (baseMaskFor (parts.getD (reqs.getD ri defaultReq).partIndex defaultPart)
            (reqs.getD ri defaultReq).constraint true)
        exact locMasks_mask _ _ _ _ _ _ lm hlm
      · intro b' hb'
        rw [hcomp] at hb'
        have hb2 : b' = true := (Option.some.inj hb').symm
        subst hb2
        rfl

/-! Search invariants. -/

/-- GoodCands holds for the per-requirement candidate lists solve builds. -/
theorem goodCands_solveCandidates (parts : List Part) (reqs : List Requirement)
    (gs : GridSettings) (spinnableColors : List Bool) :
    GoodCands parts reqs (solveCandidates parts reqs gs spinnableColors) := by
  intro p hp c hc
  unfold solveCandidates at hp
  rcases List.mem_map.mp hp with ⟨i, hi, rfl⟩
  exact candidatesForPart_ok parts reqs gs _ i c hc

/-- GoodCands survives the candidate sort. -/
theorem goodCands_sorted (parts : List Part) (reqs : List Requirement)
    (gs : GridSettings) (spinnableColors : List Bool) :
    GoodCands parts reqs (sortedCandidates parts reqs gs spinnableColors) :=
  fun p hp =>
    goodCands_solveCandidates parts reqs gs spinnableColors p
      ((List.perm_insertionSort candOrder _).mem_iff.mp hp)

/-- filterMap with a total function is map. -/
theorem filterMap_some_eq_map {α β : Type} (f : α → β) (l : List α) :
    l.filterMap (fun a => some (f a)) = l.map f := by
  induction l with
  | nil => rfl
  | cons a l ih => simp [List.filterMap_cons, ih]

/-- Main loop invariant: one level of the candidate loop satisfies
CandLoopOut, assuming the recursion into the remaining levels satisfies
StepSpec. -/
theorem candLoop_spec (parts : List Part) (reqs : List Requirement)
    (rest : List (Nat × List Candidate))
    (step : Grid → List (List Int) → List Raw × List (List Int))
    (hstep : StepSpec parts reqs rest step) (ri : Nat) :
    ∀ (cands : List Candidate), (∀ c ∈ cands, CandOk parts reqs ri c) →
    ∀ (grid : Grid) (vis : List (List Int)),
      CandLoopOut parts reqs (rest.map Prod.fst) ri grid vis
        (candLoop parts reqs step rest.isEmpty ri cands grid vis) := by
  intro cands
  induction cands with
  | nil =>
    intro _ grid vis
    refine ⟨fun f hf => hf, ?_, ?_⟩
    · intro raw hraw
      simp [candLoop] at hraw
    · simp [candLoop]
  | cons c cs ih =>
    intro hcands grid vis
    have hcand := hcands c (List.mem_cons_self c cs)
    have hcands' : ∀ x ∈ cs, CandOk parts reqs ri x :=
      fun x hx => hcands x (List.mem_cons_of_mem c hx)
    simp only [candLoop]
    split
    · exact ih hcands' grid vis
    · split
      · exact ih hcands' grid vis
      · split
        · exact ih hcands' grid vis
        · rename_i hok hadm hfp
          have hadm2 : placementIsAdmissible
              (grid.place c.mask c.placement.loc.position (ri : Int)).2
              (parts.getD (reqs.getD ri defaultReq).partIndex defaultPart).isSolid
              (ri : Int) (reqs.getD ri defaultReq).constraint.onCommandLine
              (reqs.getD ri defaultReq).constraint.bugged = true := by
            simpa using hadm
          obtain ⟨ms, bs, ps, ws⟩ :=
            hstep (grid.place c.mask c.placement.loc.position (ri : Int)).2
              (gridFingerprint (grid.place c.mask c.placement.loc.position (ri : Int)).2 reqs :: vis)
          obtain ⟨mI, pI, wI⟩ := ih hcands' grid
            (step (grid.place c.mask c.placement.loc.position (ri : Int)).2
              (gridFingerprint (grid.place c.mask c.placement.loc.position (ri : Int)).2 reqs :: vis)).2
          have hstamp : ∀ sub : Raw,
              stampFrom parts reqs (sub ++ [(ri, c.placement)]) grid =
                stampFrom parts reqs sub
                  (grid.place c.mask c.placement.loc.position (ri : Int)).2 := by
            intro sub
            rw [stampFrom_append, ← hcand.1]
          by_cases hcond : (rest.isEmpty && !solutionIsAdmissible parts reqs
              (grid.place c.mask c.placement.loc.position (ri : Int)).2) = true
          · have hsols :
                ((step (grid.place c.mask c.placement.loc.position (ri : Int)).2
                  (gridFingerprint (grid.place c.mask c.placement.loc.position (ri : Int)).2 reqs :: vis)).1.filterMap
                  fun sub =>
                    if rest.isEmpty && !solutionIsAdmissible parts reqs
                        (grid.place c.mask c.placement.loc.position (ri : Int)).2 then
                      none
                    else some (sub ++ [(ri, c.placement)])) = [] := by
              simp [hcond]
            rw [hsols, List.nil_append]
            refine ⟨?_, ?_, wI⟩
            · intro f hf
              exact mI f (ms f (List.mem_cons_of_mem _ hf))
            · intro raw hraw
              obtain ⟨hA, hP, hin, hnin, hadm3, hcmd⟩ := pI raw hraw
              exact ⟨hA, hP, hin,
                fun hmem => hnin (ms _ (List.mem_cons_of_mem _ hmem)), hadm3, hcmd⟩
          · have hcf : (rest.isEmpty && !solutionIsAdmissible parts reqs
                (grid.place c.mask c.placement.loc.position (ri : Int)).2) = false := by
              revert hcond
              cases rest.isEmpty && !solutionIsAdmissible parts reqs
                (grid.place c.mask c.placement.loc.position (ri : Int)).2 <;> simp
            have hsols :
                ((step (grid.place c.mask c.placement.loc.position (ri : Int)).2
                  (gridFingerprint (grid.place c.mask c.placement.loc.position (ri : Int)).2 reqs :: vis)).1.filterMap
                  fun sub =>
                    if rest.isEmpty && !solutionIsAdmissible parts reqs
                        (grid.place c.mask c.placement.loc.position (ri : Int)).2 then
                      none
                    else some (sub ++ [(ri, c.placement)])) =
                (step (grid.place c.mask c.placement.loc.position (ri : Int)).2
                  (gridFingerprint (grid.place c.mask c.placement.loc.position (ri : Int)).2 reqs :: vis)).1.map
                  (fun sub => sub ++ [(ri, c.placement)]) := by
              simp only [hcf, Bool.false_eq_true, if_false]
              exact filterMap_some_eq_map _ _
            rw [hsols]
            refine ⟨?_, ?_, ?_⟩
            · intro f hf
              exact mI f (ms f (List.mem_cons_of_mem _ hf))
            · intro raw hraw
              rcases List.mem_append.mp hraw with hm | hm
              · obtain ⟨sub, hsub, rfl⟩ := List.mem_map.mp hm
                by_cases hrest : rest = []
                · have hsub2 : sub = [] := by
                    rw [bs hrest] at hsub
                    simpa using hsub
                  subst hsub2
                  have hstampr : stampFrom parts reqs ([] ++ [(ri, c.placement)]) grid =
                      (grid.place c.mask c.placement.loc.position (ri : Int)).2 := by
                    rw [hstamp]
                    rfl
                  have hadm4 : solutionIsAdmissible parts reqs
                      (grid.place c.mask c.placement.loc.position (ri : Int)).2 = true := by
                    have hcf2 := hcf
                    rw [hrest] at hcf2
                    simpa using hcf2
                  refine ⟨?_, ?_, ?_, ?_, ?_, ?_⟩
                  · rw [hrest]
                    rfl
                  · intro p hp
                    have hp2 : p = (ri, c.placement) := by simpa using hp
                    subst hp2
                    exact hcand.2
                  · rw [hstampr]
                    exact mI _ (ms _ (List.mem_cons_self _ _))
                  · rw [hstampr]
                    exact hfp
                  · rw [hstampr]
                    exact hadm4
                  · intro p hp
                    have hp2 : p = (ri, c.placement) := by simpa using hp
                    subst hp2
                    intro hoc
                    rw [hstampr]
                    rw [hoc] at hadm2
                    exact placementIsAdmissible_cmdline _ _ _ _ hadm2
                · obtain ⟨hA, hP, hguard⟩ := ps sub hsub
                  obtain ⟨hin, hnin, hadm3, hcmd⟩ := hguard hrest
                  refine ⟨?_, ?_, ?_, ?_, ?_, ?_⟩
                  · simp [hA]
                  · intro p hp
                    rcases List.mem_append.mp hp with hp1 | hp1
                    · exact hP p hp1
                    · have hp2 : p = (ri, c.placement) := by simpa using hp1
                      subst hp2
                      exact hcand.2
                  · rw [hstamp]
                    exact mI _ hin
                  · rw [hstamp]
                    exact fun hmem => hnin (List.mem_cons_of_mem _ hmem)
                  · rw [hstamp]
                    exact hadm3
                  · intro p hp
                    rcases List.mem_append.mp hp with hp1 | hp1
                    · rw [hstamp]
                      exact hcmd p hp1
                    · have hp2 : p = (ri, c.placement) := by simpa using hp1
                      subst hp2
                      intro hoc
                      rw [hstamp]
                      rw [hoc] at hadm2
                      have hc0 := placementIsAdmissible_cmdline _ _ _ _ hadm2
                      have hsh := stampFrom_shape parts reqs sub
                        (grid.place c.mask c.placement.loc.position (ri : Int)).2
                      have hclr := hsh.2.1
                      rw [hclr]
                      have hv : (ri : Int) ≠ -1 := by
                        have := Int.natCast_nonneg ri
                        omega
                      exact count_row_pos_preserve _ _ _ _ hsh.2.2.2.2 hsh.2.2.2.1
                        (fun j hj => stampFrom_preserve parts reqs _ hv sub _ j hj) hc0
              · obtain ⟨hA, hP, hin, hnin, hadm3, hcmd⟩ := pI raw hm
                exact ⟨hA, hP, hin,
                  fun hmem => hnin (ms _ (List.mem_cons_of_mem _ hmem)), hadm3, hcmd⟩
            · refine List.pairwise_append.mpr ⟨?_, wI, ?_⟩
              · rw [List.pairwise_map]
                by_cases hrest : rest = []
                · rw [bs hrest]
                  simp
                · refine List.Pairwise.imp ?_ ws
                  intro a b h
                  rw [hstamp a, hstamp b]
                  exact h hrest
              · intro a ha b hb
                obtain ⟨sub, hsub, rfl⟩ := List.mem_map.mp ha
                have hinA : gridFingerprint
                    (stampFrom parts reqs (sub ++ [(ri, c.placement)]) grid) reqs ∈
                    (step (grid.place c.mask c.placement.loc.position (ri : Int)).2
                      (gridFingerprint (grid.place c.mask c.placement.loc.position (ri : Int)).2 reqs :: vis)).2 := by
                  rw [hstamp]
                  by_cases hrest : rest = []
                  · have hsub2 : sub = [] := by
                      rw [bs hrest] at hsub
                      simpa using hsub
                    subst hsub2
                    rw [bs hrest]
                    exact List.mem_cons_self _ _
                  · exact ((ps sub hsub).2.2 hrest).1
                have hninB := (pI b hb).2.2.2.1
                intro heq2
                rw [heq2] at hinA
                exact hninB hinA

/-- Full search invariant: helperGo satisfies StepSpec on every candidate list
obeying the candidate discipline. -/
theorem helperGo_spec (parts : List Part) (reqs : List Requirement) :
    ∀ (cl : List (Nat × List Candidate)), GoodCands parts reqs cl →
      StepSpec parts reqs cl (fun g v => helperGo parts reqs cl g v) := by
  intro cl
  induction cl with
  | nil =>
    intro _ grid vis
    refine ⟨fun f hf => hf, fun _ => rfl, ?_, ?_⟩
    · intro sub hsub
      have hsub2 : sub = [] := by simpa [helperGo] using hsub
      subst hsub2
      exact ⟨rfl, by simp, fun hne => absurd rfl hne⟩
    · show ([[]] : List Raw).Pairwise _
      simp
  | cons hd rest ih =>
    intro hgood grid vis
    obtain ⟨ri, cands⟩ := hd
    have hgood' : GoodCands parts reqs rest :=
      fun p hp => hgood p (List.mem_cons_of_mem _ hp)
    have hcands : ∀ c ∈ cands, CandOk parts reqs ri c :=
      hgood (ri, cands) (List.mem_cons_self _ _)
    obtain ⟨hm, hper, hpw⟩ :=
      candLoop_spec parts reqs rest _ (ih hgood') ri cands hcands grid vis
    refine ⟨hm, ?_, ?_, ?_⟩
    · intro hcontra
      exact absurd hcontra (by simp)
    · intro sub hsub
      obtain ⟨hA, hP, hin, hnin, hadm, hcmd⟩ := hper sub hsub
      refine ⟨?_, hP, fun _ => ⟨hin, hnin, hadm, hcmd⟩⟩
      simpa [List.reverse_cons] using hA
    · exact List.Pairwise.imp (fun h _ => h) hpw

/-! Emission order lemmas. -/

/-- The unsorted candidate pair list carries the requirement indices in input
order. -/
theorem solveCandidates_fst (parts : List Part) (reqs : List Requirement)
    (gs : GridSettings) (spinnableColors : List Bool) :
    (solveCandidates parts reqs gs spinnableColors).map Prod.fst =
      List.range reqs.length := by
  unfold solveCandidates
  rw [List.map_map]
  simp [Function.comp_def]

/-- The placement order is a permutation of the requirement indices. -/
theorem sortedIdx_perm (parts : List Part) (reqs : List Requirement)
    (gs : GridSettings) (spinnableColors : List Bool) :
    (sortedIdx parts reqs gs spinnableColors).Perm (List.range reqs.length) := by
  unfold sortedIdx sortedCandidates
  have h :=
    (List.perm_insertionSort candOrder
      (solveCandidates parts reqs gs spinnableColors)).map Prod.fst
  rw [solveCandidates_fst] at h
  exact h

/-- Sorting a raw whose indices are a permutation of `range n` by reqIdx puts
index i at position i. -/
theorem sortPairs_fst (n : Nat) (raw : Raw)
    (h : (raw.map Prod.fst).Perm (List.range n)) :
    (sortPairs raw).map Prod.fst = List.range n := by
  have hperm : ((sortPairs raw).map Prod.fst).Perm (List.range n) :=
    ((List.perm_insertionSort pairLE raw).map Prod.fst).trans h
  have hsorted : List.Sorted (fun a b => a ≤ b) ((sortPairs raw).map Prod.fst) :=
    List.pairwise_map.mpr (List.sorted_insertionSort pairLE raw)
  have hrange : List.Sorted (fun a b => a ≤ b) (List.range n) :=
    List.Pairwise.imp (fun hlt => Nat.le_of_lt hlt) (List.sorted_lt_range n)
  exact List.eq_of_perm_of_sorted hperm hsorted hrange

/-- An emitted raw is recovered from its emitted solution: re-pairing the
solution entries along the reverse placement order gives back the raw list. -/
theorem rawOfSolution_eq (parts : List Part) (reqs : List Requirement)
    (gs : GridSettings) (spinnableColors : List Bool) (raw : Raw)
    (hfst : raw.map Prod.fst = (sortedIdx parts reqs gs spinnableColors).reverse) :
    rawOfSolution parts reqs gs spinnableColors ((sortPairs raw).map Prod.snd) =
      raw := by
  have hperm0 : (raw.map Prod.fst).Perm (List.range reqs.length) := by
    rw [hfst]
    exact (List.reverse_perm _).trans (sortedIdx_perm parts reqs gs spinnableColors)
  have hsp : (sortPairs raw).map Prod.fst = List.range reqs.length :=
    sortPairs_fst reqs.length raw hperm0
  have hlen_raw : raw.length = reqs.length := by simpa using hperm0.length_eq
  have hlen_sp : (sortPairs raw).length = raw.length :=
    List.length_insertionSort pairLE raw
  have hlen_sidx : (sortedIdx parts reqs gs spinnableColors).length = reqs.length := by
    simpa using (sortedIdx_perm parts reqs gs spinnableColors).length_eq
  have hkey : ∀ (k : Nat) (hk : k < raw.length),
      raw[k].1 < reqs.length ∧
      ∀ (ha : raw[k].1 < (sortPairs raw).length), (sortPairs raw)[raw[k].1] = raw[k] := by
    intro k hk
    have hmem : raw[k] ∈ sortPairs raw :=
      (List.perm_insertionSort pairLE raw).mem_iff.mpr (List.getElem_mem hk)
    obtain ⟨j, hj, hjeq⟩ := List.mem_iff_getElem.mp hmem
    have hjfst : j = raw[k].1 := by
      have hjm : j < ((sortPairs raw).map Prod.fst).length := by simpa using hj
      have h1 : ((sortPairs raw).map Prod.fst)[j] = raw[k].1 := by
        rw [List.getElem_map]
        exact congrArg Prod.fst hjeq
      simp only [hsp, List.getElem_range] at h1
      exact h1
    constructor
    · have hjn : j < reqs.length := by omega
      omega
    · intro ha
      subst hjfst
      exact hjeq
  apply List.ext_getElem
  · unfold rawOfSolution
    simp [hlen_sidx, hlen_raw]
  · intro k h1 h2
    unfold rawOfSolution
    rw [List.getElem_map]
    have hkrev : k < (sortedIdx parts reqs gs spinnableColors).reverse.length := by
      rw [List.length_reverse, hlen_sidx]
      omega
    have hk1 : (sortedIdx parts reqs gs spinnableColors).reverse[k] = raw[k].1 := by
      have h3 := List.getElem_of_eq hfst.symm (i := k) (by
        rw [List.length_reverse, hlen_sidx]
        omega)
      simp only [List.getElem_map] at h3
      exact h3
    have hkk := hkey k h2
    have ha : raw[k].1 < (sortPairs raw).length := by omega
    have hsnd : ((sortPairs raw).map Prod.snd).getD raw[k].1 defaultPlacement =
        raw[k].2 := by
      rw [List.getD_eq_getElem _ _ (by simpa using ha)]
      rw [List.getElem_map]
      rw [hkk.2 ha]
    simp only [hk1, hsnd]

/-! Claim theorems: concrete evaluations first. -/

/-- C5: the claim states Grid.place is all-or-nothing (false implies the grid
is unchanged).  The code refutes it: stamping a domino over an empty cell
followed by an occupied cell returns false after having already written the
first cell. -/
theorem c5_place_mutates_on_failure :
    gridC5.place mask1x2 ⟨0, 0⟩ 0 = (false, ⟨false, 0, ⟨[0, 5], 1, 2⟩⟩) ∧
    (⟨false, 0, ⟨[0, 5], 1, 2⟩⟩ : Grid) ≠ gridC5 := by decide

/-- C2: placeAll with `placements[0].compressed = false` stamps the compressed
one-cell mask (only the origin cell is covered), not the two-cell uncompressed
mask the claim demands; the two masks differ. -/
theorem c2_placeAll_uses_compressed_mask :
    placeAll [partNe] reqsNe [plUncompressed] gs2x2 =
      some [some 0, none, none, none] ∧
    plUncompressed.compressed = false ∧
    partNe.uncompressedMask ≠ partNe.compressedMask := by decide

/-- C3: with `compressed` unspecified and differing masks, both emitted
candidates (tagged true and false) carry the compressed one-cell mask; the
claim demands the uncompressed mask for the false-tagged ones. -/
theorem c3_unspecified_uses_compressed_twice :
    candidatesForPart partNe gs2x2 ⟨none, none, none⟩ false =
      [⟨⟨⟨⟨0, 0⟩, 0⟩, true⟩, mask1x1⟩, ⟨⟨⟨⟨0, 0⟩, 0⟩, false⟩, mask1x1⟩] ∧
    Array2D.equal partNe.compressedMask partNe.uncompressedMask = false := by decide

/-- C4: a requirement whose only ring cell is on the top row is not counted as
out of bounds by the code's global check (its ring test repeats the rightmost
column instead of testing the top row), so the code rejects a grid the claim's
ring definition accepts. -/
theorem c4_top_row_not_out_of_bounds :
    solutionIsAdmissible partsC4 reqsC4 gridC4 = false ∧
    solutionIsAdmissibleSpec partsC4 reqsC4 gridC4 = true ∧
    reqOutOfBounds gridC4 0 = false ∧
    reqOutOfBoundsSpec gridC4 0 = true := by decide

/-- C9: solve is a pure deterministic function of its four arguments; two
invocations on identical inputs return identical solution sequences. -/
theorem c9_deterministic (parts : List Part) (reqs : List Requirement)
    (gs : GridSettings) (spinnableColors : List Bool) :
    solve parts reqs gs spinnableColors = solve parts reqs gs spinnableColors := rfl

/-- C6: solve yields the empty sequence whenever a pre-check triggers: command
line row out of range, more command-line requirements than columns, or
selected-mask cells exceeding the available squares. -/
theorem c6_prechecks_empty (parts : List Part) (reqs : List Requirement)
    (gs : GridSettings) (spinnableColors : List Bool)
    (h : gs.height < gs.commandLineRow ∨
      gs.width < reqs.countP (fun r => r.constraint.onCommandLine == some true) ∨
      (gs.width : Int) * gs.height - (if gs.hasOob then 4 else 0) <
        ((reqs.map fun r =>
          if r.constraint.compressed == some false then
            arrayCountTrue (parts.getD r.partIndex defaultPart).uncompressedMask.data
          else
            arrayCountTrue (parts.getD r.partIndex defaultPart).compressedMask.data).sum
          : Int)) :
    solve parts reqs gs spinnableColors = [] := by
  rcases h with h | h | h
  · simp [solve, h]
  · have hadm : requirementsAreAdmissible parts reqs gs = false := by
      unfold requirementsAreAdmissible
      simp [h]
    simp [solve, hadm]
  · have hadm : requirementsAreAdmissible parts reqs gs = false := by
      unfold requirementsAreAdmissible
      by_cases h1 : gs.width <
          reqs.countP fun r => r.constraint.onCommandLine == some true
      · simp [h1]
      · rw [if_neg h1]
        simp only []
        rw [if_pos h]
    simp [solve, hadm]

/-- Witness for c6_prechecks_empty: command line row 5 on a height-1 grid. -/
theorem c6_prechecks_empty_witness :
    (1 : Nat) < 5 ∧ solve [] [] (⟨1, 1, false, 5⟩ : GridSettings) [] = [] :=
  ⟨by decide, c6_prechecks_empty [] [] ⟨1, 1, false, 5⟩ [] (Or.inl (by decide))⟩

/-- C10 counterexample: on a one-cell grid with the out-of-bounds ring the
capacity pre-check fires even with no requirements (0 > 1*1 - 4), so solve
yields nothing instead of the claimed single empty solution, although
commandLineRow ≤ height. -/
theorem c10_counterexample :
    ¬ (∀ (parts : List Part) (spinnableColors : List Bool) (gs : GridSettings),
        gs.commandLineRow ≤ gs.height → solve parts [] gs spinnableColors = [[]]) := by
  intro h
  exact absurd (h [] [] gs1x1Oob (by decide)) (by decide)

/-- C10 amended: with no requirements and commandLineRow ≤ height, provided
the hasOob capacity pre-check cannot fire (width*height ≥ 4 when hasOob),
solve yields exactly one solution, the empty placement list. -/
theorem c10_empty_requirements (parts : List Part) (spinnableColors : List Bool)
    (gs : GridSettings) (h1 : gs.commandLineRow ≤ gs.height)
    (h2 : gs.hasOob = true → 4 ≤ gs.width * gs.height) :
    solve parts [] gs spinnableColors = [[]] := by
  have hlt : ¬ gs.height < gs.commandLineRow := Nat.not_lt.mpr h1
  have hadm : requirementsAreAdmissible parts [] gs = true := by
    unfold requirementsAreAdmissible
    have hav : ¬ ((gs.width : Int) * gs.height - (if gs.hasOob then 4 else 0) < 0) := by
      rcases hb : gs.hasOob with _ | _
      · simp
        positivity
      · have := h2 hb
        simp only [if_pos rfl]
        have h4 : (4 : Int) ≤ (gs.width : Int) * gs.height := by
          exact_mod_cast this
        omega
    simpa using hav
  simp [solve, hlt, hadm, solveRaws, sortedCandidates, solveCandidates,
    helperGo, sortPairs, List.insertionSort]

/-- Witness for c10_empty_requirements at a 1x1 grid without the ring. -/
theorem c10_empty_requirements_witness :
    (0 : Nat) ≤ 1 ∧ solve [] [] (⟨1, 1, false, 0⟩ : GridSettings) [] = [[]] :=
  ⟨by decide,
   c10_empty_requirements [] [] ⟨1, 1, false, 0⟩ (by decide) (by decide)⟩

/-- C1 counterexample: for the one-cell part with equal masks under constraint
`compressed = no`, `onCommandLine = no`, solve emits a placement tagged
compressed (violating the specified compressed value) whose only cell lies on
the command line row (violating the claimed onCommandLine = no property). -/
theorem c1_counterexample :
    ¬ (∀ sol ∈ solve [partEq] reqsA gs2x2 [], ∀ i : Nat, ∀ b : Bool,
        ((reqsA.getD i defaultReq).constraint.compressed = some b →
          (sol.getD i defaultPlacement).compressed = b) ∧
        ((reqsA.getD i defaultReq).constraint.onCommandLine = some false →
          arrayCountNumber
            ((materializedGrid [partEq] reqsA gs2x2 [] sol).cells.row
              gs2x2.commandLineRow) (i : Int) = 0)) := by
  intro h
  have h1 := (h solA (by decide) 0 false).1 (by decide)
  exact absurd h1 (by decide)

/-- C8: every emitted solution has exactly one placement per requirement in
the original requirement order: it arises from a raw pair list whose reqIdx
sort puts index i at position i, and the solution is the placement column of
that sorted pairing — so entry i is the placement chosen for requirements[i],
regardless of the sorted placement order used during search. -/
theorem c8_solution_indexing (parts : List Part) (reqs : List Requirement)
    (gs : GridSettings) (spinnableColors : List Bool) :
    ∀ sol ∈ solve parts reqs gs spinnableColors,
      sol.length = reqs.length ∧
      ∃ raw ∈ solveRaws parts reqs gs spinnableColors,
        sol = (sortPairs raw).map Prod.snd ∧
        (sortPairs raw).map Prod.fst = List.range reqs.length := by
  intro sol hsol
  unfold solve at hsol
  split at hsol
  · simp at hsol
  · split at hsol
    · simp at hsol
    · obtain ⟨raw, hraw, rfl⟩ := List.mem_map.mp hsol
      have hspec := helperGo_spec parts reqs
        (sortedCandidates parts reqs gs spinnableColors)
        (goodCands_sorted parts reqs gs spinnableColors) (Grid.new gs) []
      have hA := (hspec.2.2.1 raw hraw).1
      have hperm0 : (raw.map Prod.fst).Perm (List.range reqs.length) := by
        rw [hA]
        exact (List.reverse_perm _).trans (sortedIdx_perm parts reqs gs spinnableColors)
      have hsp := sortPairs_fst reqs.length raw hperm0
      refine ⟨?_, raw, hraw, rfl, hsp⟩
      have h1 : raw.length = reqs.length := by simpa using hperm0.length_eq
      simp [sortPairs, List.length_insertionSort, h1]

/-- Witness for c8_solution_indexing at the concrete one-requirement input. -/
theorem c8_solution_indexing_witness :
    solA ∈ solve [partEq] reqsA gs2x2 [] ∧
    (solA.length = reqsA.length ∧
      ∃ raw ∈ solveRaws [partEq] reqsA gs2x2 [],
        solA = (sortPairs raw).map Prod.snd ∧
        (sortPairs raw).map Prod.fst = List.range reqsA.length) :=
  ⟨by decide, c8_solution_indexing [partEq] reqsA gs2x2 [] solA (by decide)⟩

/-- C1 (amended): for every emitted solution, a specified compressed
constraint forces the placement tag except that equal part masks force the
tag true; onCommandLine = yes guarantees a cell of the requirement on the
command line row of the materialized grid; and a specified bugged constraint
equals the final bugged predicate the code's global check computes.  (The
onCommandLine = no case is not enforced; see the counterexample.) -/
theorem c1_constraints (parts : List Part) (reqs : List Requirement)
    (gs : GridSettings) (spinnableColors : List Bool) :
    ∀ sol ∈ solve parts reqs gs spinnableColors, ∀ ri : Nat,
      (∀ b, (reqs.getD ri defaultReq).constraint.compressed = some b →
        (sol.getD ri defaultPlacement).compressed =
          (b || Array2D.equal
            (parts.getD (reqs.getD ri defaultReq).partIndex defaultPart).compressedMask
            (parts.getD (reqs.getD ri defaultReq).partIndex defaultPart).uncompressedMask)) ∧
      ((reqs.getD ri defaultReq).constraint.onCommandLine = some true →
        0 < arrayCountNumber
          ((materializedGrid parts reqs gs spinnableColors sol).cells.row
            (materializedGrid parts reqs gs spinnableColors sol).commandLineRow)
          (ri : Int)) ∧
      (∀ b, (reqs.getD ri defaultReq).constraint.bugged = some b →
        placementIsBuggedFinal parts reqs
          (materializedGrid parts reqs gs spinnableColors sol) ri = b) := by
  intro sol hsol ri
  unfold solve at hsol
  split at hsol
  · simp at hsol
  · split at hsol
    · simp at hsol
    · obtain ⟨raw, hraw, rfl⟩ := List.mem_map.mp hsol
      have hspec := helperGo_spec parts reqs
        (sortedCandidates parts reqs gs spinnableColors)
        (goodCands_sorted parts reqs gs spinnableColors) (Grid.new gs) []
      obtain ⟨hA, hP, hguard⟩ := hspec.2.2.1 raw hraw
      have hmat : materializedGrid parts reqs gs spinnableColors
          ((sortPairs raw).map Prod.snd) =
          stampFrom parts reqs raw (Grid.new gs) := by
        unfold materializedGrid
        rw [rawOfSolution_eq parts reqs gs spinnableColors raw hA]
      have hri_mem : ri < reqs.length →
          (ri, ((sortPairs raw).map Prod.snd).getD ri defaultPlacement) ∈ raw := by
        intro hri
        have hmem0 : (ri, ((sortPairs raw).map Prod.snd).getD ri defaultPlacement) ∈
            rawOfSolution parts reqs gs spinnableColors
              ((sortPairs raw).map Prod.snd) := by
          unfold rawOfSolution
          exact List.mem_map_of_mem _ (List.mem_reverse.mpr
            ((sortedIdx_perm parts reqs gs spinnableColors).mem_iff.mpr
              (List.mem_range.mpr hri)))
        rw [rawOfSolution_eq parts reqs gs spinnableColors raw hA] at hmem0
        exact hmem0
      have hcl : ri < reqs.length →
          sortedCandidates parts reqs gs spinnableColors ≠ [] := by
        intro hri h0
        have hp := sortedIdx_perm parts reqs gs spinnableColors
        rw [sortedIdx, h0] at hp
        have hn := hp.length_eq
        simp at hn
        omega
      refine ⟨?_, ?_, ?_⟩
      · intro b hb
        by_cases hri : ri < reqs.length
        · exact hP _ (hri_mem hri) b hb
        · rw [List.getD_eq_default _ _ (Nat.le_of_not_lt hri)] at hb
          exact absurd hb (by simp [defaultReq])
      · intro hoc
        by_cases hri : ri < reqs.length
        · obtain ⟨hin, hnin, hadm, hcmd⟩ := hguard (hcl hri)
          have hc := hcmd _ (hri_mem hri) hoc
          rw [hmat]
          exact hc
        · rw [List.getD_eq_default _ _ (Nat.le_of_not_lt hri)] at hoc
          exact absurd hoc (by simp [defaultReq])
      · intro b hb
        by_cases hri : ri < reqs.length
        · obtain ⟨hin, hnin, hadm, hcmd⟩ := hguard (hcl hri)
          rw [hmat]
          exact solutionIsAdmissible_bugged parts reqs _ hadm ri b hb
        · rw [List.getD_eq_default _ _ (Nat.le_of_not_lt hri)] at hb
          exact absurd hb (by simp [defaultReq])

/-- Witness for c1_constraints: a solid one-cell part demanded on the command
line is placed with a cell on the command line row. -/
theorem c1_constraints_witness :
    solA ∈ solve [partEq] reqsW gs2x2 [] ∧
    (reqsW.getD 0 defaultReq).constraint.onCommandLine = some true ∧
    0 < arrayCountNumber
      ((materializedGrid [partEq] reqsW gs2x2 [] solA).cells.row
        (materializedGrid [partEq] reqsW gs2x2 [] solA).commandLineRow)
      ((0 : Nat) : Int) :=
  ⟨by decide, by decide,
   (c1_constraints [partEq] reqsW gs2x2 [] solA (by decide) 0).2.1 (by decide)⟩

/-- C7: no two solutions emitted by one solve invocation share the same
part-identity grid (the partsArr2DForGrid projection of the grid materialized
from the solution). -/
theorem c7_distinct_part_identity (parts : List Part) (reqs : List Requirement)
    (gs : GridSettings) (spinnableColors : List Bool) :
    (solve parts reqs gs spinnableColors).Pairwise
      (fun s t => partIdentityGrid parts reqs gs spinnableColors s ≠
        partIdentityGrid parts reqs gs spinnableColors t) := by
  unfold solve
  split
  · exact List.Pairwise.nil
  · split
    · exact List.Pairwise.nil
    · rw [List.pairwise_map]
      by_cases hcl : sortedCandidates parts reqs gs spinnableColors = []
      · have h1 : solveRaws parts reqs gs spinnableColors = [[]] := by
          unfold solveRaws
          rw [hcl]
          rfl
        rw [h1]
        simp
      · have hspec := helperGo_spec parts reqs
          (sortedCandidates parts reqs gs spinnableColors)
          (goodCands_sorted parts reqs gs spinnableColors) (Grid.new gs) []
        obtain ⟨hm, hb, hper, hpw⟩ := hspec
        refine List.Pairwise.imp_of_mem ?_ hpw
        intro a b ha hb2 hR heq2
        apply hR hcl
        have hmata : materializedGrid parts reqs gs spinnableColors
            ((sortPairs a).map Prod.snd) =
            stampFrom parts reqs a (Grid.new gs) := by
          unfold materializedGrid
          rw [rawOfSolution_eq parts reqs gs spinnableColors a (hper a ha).1]
        have hmatb : materializedGrid parts reqs gs spinnableColors
            ((sortPairs b).map Prod.snd) =
            stampFrom parts reqs b (Grid.new gs) := by
          unfold materializedGrid
          rw [rawOfSolution_eq parts reqs gs spinnableColors b (hper b hb2).1]
        unfold partIdentityGrid at heq2
        rw [hmata, hmatb] at heq2
        unfold gridFingerprint
        rw [heq2]

end Fullcust
